import Mathlib

/-!
Verification development for the userli-postfix-adapter repository.

Strings from the Go source are embedded as lists of Unicode code points
(`List Nat`, one entry per rune, mirroring Go's rune-based string
operations).  Timestamps (`time.Time`) are embedded as `Int` nanosecond
instants; `time.Duration` constants keep their nanosecond values from the
source.  Fallible Go functions returning `(T, error)` are embedded as
`Except` values; the HTTP backend and the network are oracles passed as
function arguments.
-/

/-- Converts a Lean string literal to the code-point list embedding. -/
def str (s : String) : List Nat := s.data.map Char.toNat

/-! ## Character-level helpers (Go `strings` / `unicode` fragments) -/

/-- ASCII fragment of Go `strings.ToLower`, applied rune-wise: upper-case
ASCII letters are shifted by 32, every other code point is unchanged.
(The full Unicode case table is irrelevant here: every claim concerns
code points outside the non-ASCII case-mapped range, and all characters
accepted by the local-part pattern are case-fixed.) -/
def goToLower (c : Nat) : Nat := if 65 ≤ c ∧ c ≤ 90 then c + 32 else c

/-- Go `unicode.IsSpace`: the Unicode White_Space property, as used by
`strings.TrimSpace` in `sanitizeEmail` and `HandleConnection`. -/
def goIsSpace (c : Nat) : Bool :=
  c = 9 || c = 10 || c = 11 || c = 12 || c = 13 || c = 32 ||
  c = 0x85 || c = 0xA0 || c = 0x1680 ||
  (0x2000 ≤ c && c ≤ 0x200A) ||
  c = 0x2028 || c = 0x2029 || c = 0x202F || c = 0x205F || c = 0x3000

/-- The predicate passed to `strings.TrimFunc` in `sanitizeEmail`
(userli.go): ASCII control bytes (`r < 33` or `r = 127`) and the
zero-width code points U+200B, U+200C, U+200D, U+FEFF. -/
def isInvisibleRune (c : Nat) : Bool :=
  c < 33 || c = 127 || c = 0x200B || c = 0x200C || c = 0x200D || c = 0xFEFF

/-- Trims leading and trailing runes satisfying `p` (Go `strings.TrimFunc`;
with `p = goIsSpace` it is Go `strings.TrimSpace`). -/
def trimBoth (p : Nat → Bool) (l : List Nat) : List Nat :=
  ((l.dropWhile p).reverse.dropWhile p).reverse

/-- Go `strings.Split` with a single-rune separator: splits around every
occurrence of `sep`; an input without `sep` yields one part. -/
def goSplit (sep : Nat) : List Nat → List (List Nat)
  | [] => [[]]
  | c :: rest =>
    if c = sep then [] :: goSplit sep rest
    else
      match goSplit sep rest with
      | [] => [[c]]
      | p :: ps => (c :: p) :: ps

/-- Boolean list-prefix test (Go `strings.HasPrefix` on rune lists). -/
def isPrefixOfB : List Nat → List Nat → Bool
  | [], _ => true
  | _ :: _, [] => false
  | a :: as, b :: bs => a == b && isPrefixOfB as bs

/-- Go `strings.Index` on rune lists: the first index at which `pat`
occurs as a contiguous sublist of `l`, or `none` (Go: `-1`). -/
def firstIndex : List Nat → List Nat → Option Nat
  | [], pat => if isPrefixOfB pat [] then some 0 else none
  | c :: t, pat =>
    if isPrefixOfB pat (c :: t) then some 0
    else (firstIndex t pat).map (· + 1)

/-- The regular expression `^[a-z0-9\-_.]*$` from userli.go, rune-wise:
lower-case ASCII letters, ASCII digits, `-` (45), `_` (95), `.` (46). -/
def isAllowedLocalChar (c : Nat) : Bool :=
  (97 ≤ c && c ≤ 122) || (48 ≤ c && c ≤ 57) || c = 45 || c = 95 || c = 46

/-! ## Address sanitizer (`Userli.sanitizeEmail`, userli.go) -/

/-- The three failure messages produced by `sanitizeEmail`:
`invalid email format: %s` (wrong `@` count), `invalid local part: %s`
(pattern miss), `invalid email format: empty local part after
sanitization`. -/
inductive SanitizeError where
  | invalidEmailFormat
  | invalidLocalPart
  | emptyLocalPart
deriving DecidableEq, Repr

/-- The normalization prefix of `sanitizeEmail`: `strings.ToLower`, then
`strings.TrimSpace`, then `strings.TrimFunc` with `isInvisibleRune`. -/
def normalizeEmail (email : List Nat) : List Nat :=
  trimBoth isInvisibleRune (trimBoth goIsSpace (email.map goToLower))

/-- The recipient-delimiter truncation step of `sanitizeEmail`: when a
delimiter is configured and occurs in the local part, keep the part
before its first occurrence. -/
def truncateLocal (delimiter localPart : List Nat) : List Nat :=
  if delimiter = [] then localPart
  else
    match firstIndex localPart delimiter with
    | some idx => localPart.take idx
    | none => localPart

/-- Embedding of `Userli.sanitizeEmail` (userli.go lines 299-340):
normalize, split on `@` requiring exactly two parts, truncate the local
part at the configured delimiter, require the local part to match the
allowed pattern and be non-empty, re-join with `@` (64). -/
def sanitizeEmail (delimiter email : List Nat) : Except SanitizeError (List Nat) :=
  match goSplit 64 (normalizeEmail email) with
  | [localPart, domain] =>
    let lp := truncateLocal delimiter localPart
    if lp.all isAllowedLocalChar then
      if lp = [] then .error .emptyLocalPart
      else .ok (lp ++ 64 :: domain)
    else .error .invalidLocalPart
  | _ => .error .invalidEmailFormat

/-! ## Quota and the Userli service operations (userli.go) -/

/-- The `Quota` JSON object; Go `int` fields embedded as `Int`. -/
structure Quota where
  PerHour : Int
  PerDay : Int
deriving DecidableEq, Repr

/-- Errors a Userli operation can return to its caller: a sanitization
failure passed through, or any backend failure (transport, non-2xx,
decode). -/
inductive UserliError where
  | sanitizeFailure (e : SanitizeError)
  | backendFailure
deriving DecidableEq, Repr

/-- `Userli.GetAliases`: a sanitization failure is logged and swallowed,
returning the empty list with nil error; otherwise the HTTP backend
(oracle `backend`) is consulted with the sanitized address. -/
def GetAliases (delimiter : List Nat)
    (backend : List Nat → Except UserliError (List (List Nat)))
    (email : List Nat) : Except UserliError (List (List Nat)) :=
  match sanitizeEmail delimiter email with
  | .error _ => .ok []
  | .ok s => backend s

/-- `Userli.GetSenders`: same sanitize-then-call shape as `GetAliases`. -/
def GetSenders (delimiter : List Nat)
    (backend : List Nat → Except UserliError (List (List Nat)))
    (email : List Nat) : Except UserliError (List (List Nat)) :=
  match sanitizeEmail delimiter email with
  | .error _ => .ok []
  | .ok s => backend s

/-- `Userli.GetMailbox`: a sanitization failure returns `false` with nil
error; otherwise the backend is consulted. -/
def GetMailbox (delimiter : List Nat)
    (backend : List Nat → Except UserliError Bool)
    (email : List Nat) : Except UserliError Bool :=
  match sanitizeEmail delimiter email with
  | .error _ => .ok false
  | .ok s => backend s

/-- `Userli.GetDomain`: no sanitization; the backend is consulted
directly. -/
def GetDomain (backend : List Nat → Except UserliError Bool)
    (domain : List Nat) : Except UserliError Bool :=
  backend domain

/-- `Userli.GetQuota` (userli.go lines 220-240): unlike the other
operations, a sanitization failure is returned to the caller
(`return nil, err`). -/
def GetQuota (delimiter : List Nat)
    (backend : List Nat → Except UserliError Quota)
    (email : List Nat) : Except UserliError Quota :=
  match sanitizeEmail delimiter email with
  | .error e => .error (.sanitizeFailure e)
  | .ok s => backend s

/-! ## Rate limiter (`RateLimiter.CheckAndIncrement`, ratelimit source) -/

/-- Go `time.Hour` in nanoseconds. -/
def goHour : Int := 3600000000000

/-- Go `24 * time.Hour` in nanoseconds. -/
def goDay : Int := 86400000000000

/-- The garbage-collecting counting loop of `CheckAndIncrement`: one
left-to-right pass over the stored timestamps keeping those strictly
after `dayAgo` (`ts.After(dayAgo)`), counting the kept ones (`dayCount`)
and those also strictly after `hourAgo` (`hourCount`).  Returns
`(validTimestamps, hourCount, dayCount)`. -/
def sweep (dayAgo hourAgo : Int) : List Int → List Int × Nat × Nat
  | [] => ([], 0, 0)
  | ts :: rest =>
    let r := sweep dayAgo hourAgo rest
    if dayAgo < ts then
      (ts :: r.1, (if hourAgo < ts then r.2.1 + 1 else r.2.1), r.2.2 + 1)
    else r

/-- Result of one `CheckAndIncrement` call: the returned triple plus the
sender's timestamp sequence after the call. -/
structure RLResult where
  allowed : Bool
  hourCount : Nat
  dayCount : Nat
  state : List Int
deriving DecidableEq, Repr

/-- Embedding of `RateLimiter.CheckAndIncrement` for one sender: `counter`
is the sender's stored timestamp sequence, `now` the value of
`time.Now()` during the call.  A nil quota returns `(true, 0, 0)`
immediately; otherwise expired timestamps are dropped, current usage is
counted, the hour then day limits are checked (a limit of 0 is
unlimited), and on admission `now` is appended. -/
def checkAndIncrement (counter : List Int) (quota : Option Quota) (now : Int) : RLResult :=
  match quota with
  | none => ⟨true, 0, 0, counter⟩
  | some q =>
    let hourAgo := now - goHour
    let dayAgo := now - goDay
    let s := sweep dayAgo hourAgo counter
    if 0 < q.PerHour ∧ q.PerHour ≤ (s.2.1 : Int) then ⟨false, s.2.1, s.2.2, s.1⟩
    else if 0 < q.PerDay ∧ q.PerDay ≤ (s.2.2 : Int) then ⟨false, s.2.1, s.2.2, s.1⟩
    else ⟨true, s.2.1 + 1, s.2.2 + 1, s.1 ++ [now]⟩

/-- Runs a sequence of `CheckAndIncrement` calls for one sender with a
fixed quota: `st` is the stored timestamp sequence, `acc` accumulates the
call times that were answered `allowed = true`, `calls` the remaining
call times in order. -/
def allowedAcc (q : Quota) : List Int → List Int → List Int → List Int
  | _, acc, [] => acc
  | st, acc, t :: rest =>
    let r := checkAndIncrement st (some q) t
    allowedAcc q r.state (if r.allowed then acc ++ [t] else acc) rest

/-- The call times answered `allowed = true` in a sequence of calls with
fixed quota `q`, starting from a fresh (empty) sender counter. -/
def allowedTimes (q : Quota) (calls : List Int) : List Int :=
  allowedAcc q [] [] calls

/-! ## Policy handler (`PolicyServer.handleRequest`, policy.go) -/

/-- The decisioning fields of a parsed policy request.  The remaining
fields of `PolicyRequest` are parsed but never read by `handleRequest`. -/
structure PolicyReq where
  protocolState : List Nat
  sender : List Nat
  saslUsername : List Nat

/-- The sender identity used for rate limiting: `sasl_username` when
non-empty, otherwise the envelope `sender`. -/
def senderIdentity (req : PolicyReq) : List Nat :=
  if req.saslUsername = [] then req.sender else req.saslUsername

/-- Embedding of `PolicyServer.handleRequest` (policy.go lines 205-291).
`fetch` is the `GetQuota` call keyed by the sender identity, `st` the
rate-limiter state for that sender, `now` the clock at the
`CheckAndIncrement` call.  Returns the action string and the limiter
state after the call. -/
def handleRequest (req : PolicyReq)
    (fetch : List Nat → Except UserliError Quota)
    (st : List Int) (now : Int) : List Nat × List Int :=
  if req.protocolState ≠ str "END-OF-MESSAGE" then (str "DUNNO", st)
  else
    let sender := senderIdentity req
    if sender = [] then (str "DUNNO", st)
    else
      match fetch sender with
      | .error _ => (str "DUNNO", st)
      | .ok quota =>
        if quota.PerHour = 0 ∧ quota.PerDay = 0 then (str "DUNNO", st)
        else
          let r := checkAndIncrement st (some quota) now
          if r.allowed then (str "DUNNO", r.state)
          else (str "REJECT Rate limit exceeded, please try again later", r.state)

/-! ## Socketmap lookup handler (`SocketmapAdapter.HandleConnection`,
socketmap.go) -/

/-- A socketmap response: status word plus optional data. -/
structure SMResponse where
  status : List Nat
  data : List Nat
deriving DecidableEq, Repr

/-- `SocketmapResponse.String()`: the status alone when the data is
empty, otherwise status, one space, data. -/
def SMResponse.render (r : SMResponse) : List Nat :=
  if r.data = [] then r.status else r.status ++ str " " ++ r.data

/-- The `UserliService` results consulted by the socketmap handler,
bundled as oracles keyed by the request key. -/
structure LookupBackend where
  aliases : List Nat → Except UserliError (List (List Nat))
  domain : List Nat → Except UserliError Bool
  mailbox : List Nat → Except UserliError Bool
  sendersOf : List Nat → Except UserliError (List (List Nat))

/-- `strings.Join(l, ",")`. -/
def joinComma (l : List (List Nat)) : List Nat := List.intercalate (str ",") l

/-- `SocketmapAdapter.handleAlias`. -/
def handleAlias (b : LookupBackend) (key : List Nat) : SMResponse :=
  match b.aliases key with
  | .error _ => ⟨str "TEMP", str "Error fetching aliases"⟩
  | .ok aliases =>
    if aliases.length = 0 then ⟨str "NOTFOUND", []⟩
    else ⟨str "OK", joinComma aliases⟩

/-- `SocketmapAdapter.handleDomain`. -/
def handleDomain (b : LookupBackend) (key : List Nat) : SMResponse :=
  match b.domain key with
  | .error _ => ⟨str "TEMP", str "Error fetching domain"⟩
  | .ok exists₀ => if exists₀ then ⟨str "OK", str "1"⟩ else ⟨str "NOTFOUND", []⟩

/-- `SocketmapAdapter.handleMailbox`. -/
def handleMailbox (b : LookupBackend) (key : List Nat) : SMResponse :=
  match b.mailbox key with
  | .error _ => ⟨str "TEMP", str "Error fetching mailbox"⟩
  | .ok exists₀ => if exists₀ then ⟨str "OK", str "1"⟩ else ⟨str "NOTFOUND", []⟩

/-- `SocketmapAdapter.handleSenders`. -/
def handleSenders (b : LookupBackend) (key : List Nat) : SMResponse :=
  match b.sendersOf key with
  | .error _ => ⟨str "TEMP", str "Error fetching senders"⟩
  | .ok senders =>
    if senders.length = 0 then ⟨str "NOTFOUND", []⟩
    else ⟨str "OK", joinComma senders⟩

/-- Go `strings.SplitN(s, " ", 2)` on rune lists: split at the first
space only; an input without a space yields a single part. -/
def splitN2 (sep : Nat) (l : List Nat) : List (List Nat) :=
  match firstIndex l [sep] with
  | some idx => [l.take idx, l.drop (idx + 1)]
  | none => [l]

/-- The per-request body of `SocketmapAdapter.HandleConnection`
(socketmap.go lines 91-130): trim the decoded payload, split it into map
name and key at the first space, route to the map's handler; a payload
that does not split into two fields is a permanent format error, an
unknown map name a permanent error. -/
def processRequest (b : LookupBackend) (request : List Nat) : SMResponse :=
  match splitN2 32 (trimBoth goIsSpace request) with
  | [mapName, key] =>
    if mapName = str "alias" then handleAlias b key
    else if mapName = str "domain" then handleDomain b key
    else if mapName = str "mailbox" then handleMailbox b key
    else if mapName = str "senders" then handleSenders b key
    else ⟨str "PERM", str "Unknown map name"⟩
  | _ => ⟨str "PERM", str "Invalid request format"⟩

/-! ## TCP server connection pool (tcpserver.go)

The semaphore channel `connSemaphore` of capacity
`MaxConcurrentConnections` is modelled by its token count: the
`select`/`default` non-blocking send of the accept loop is a conditional
increment, the single deferred receive of `handleTCPConnection` a
decrement on handler exit. -/

/-- `MaxConcurrentConnections = 500` (tcpserver.go). -/
def MaxConcurrentConnections : Nat := 500

/-- Outcome of one accept-loop iteration on the pool: whether the
connection was admitted, and the pool occupancy afterwards.  The refusal
branch of the source only logs, invokes `OnConnectionPoolFull` and closes
the connection: it writes nothing and leaves the pool unchanged. -/
def acceptConn (occ : Nat) : Bool × Nat :=
  if occ < MaxConcurrentConnections then (true, occ + 1) else (false, occ)

/-- Pool events: an accept-loop iteration, or a handler exit (the
deferred release in `handleTCPConnection`, run exactly once per spawned
handler). -/
inductive PoolEvent where
  | accept
  | finish

/-- Pool occupancy transition for one event. -/
def poolStep (occ : Nat) : PoolEvent → Nat
  | .accept => (acceptConn occ).2
  | .finish => occ - 1

/-- Pool occupancy after a sequence of events, starting from an empty
pool. -/
def poolOcc (evts : List PoolEvent) : Nat := evts.foldl poolStep 0

/-! ## Specification-side sanitizer definitions (for claim C7)

These two definitions follow the specification's words, to be compared
with `sanitizeEmail`, which is translated from the source. -/

/-- The trim set named by the specification's sanitizer algorithm:
ASCII whitespace and control bytes (`< 0x21` or `= 0x7F`) and the
zero-width code points U+200B, U+200C, U+200D, U+FEFF. -/
def specTrimRune (c : Nat) : Bool :=
  c < 0x21 || c = 0x7F || c = 0x200B || c = 0x200C || c = 0x200D || c = 0xFEFF

/-- The sanitizer algorithm exactly as the specification states it:
(1) lowercase; (2) trim the `specTrimRune` set leading/trailing only;
(3) split on `@`, exactly two parts; (4) truncate the local part at the
first occurrence of a configured delimiter; (5) local part must match
the allowed pattern and be non-empty; (6) re-join. -/
def specSanitize (delimiter email : List Nat) : Except SanitizeError (List Nat) :=
  match goSplit 64 (trimBoth specTrimRune (email.map goToLower)) with
  | [localPart, domain] =>
    let lp := truncateLocal delimiter localPart
    if lp.all isAllowedLocalChar then
      if lp = [] then .error .emptyLocalPart
      else .ok (lp ++ 64 :: domain)
    else .error .invalidLocalPart
  | _ => .error .invalidEmailFormat

/-- The amended sanitizer algorithm: identical to `specSanitize` except
that step (2) first trims Unicode whitespace (Go `unicode.IsSpace`)
leading/trailing, and then trims the `specTrimRune` set
leading/trailing. -/
def specSanitizeAmended (delimiter email : List Nat) : Except SanitizeError (List Nat) :=
  match goSplit 64 (trimBoth specTrimRune (trimBoth goIsSpace (email.map goToLower))) with
  | [localPart, domain] =>
    let lp := truncateLocal delimiter localPart
    if lp.all isAllowedLocalChar then
      if lp = [] then .error .emptyLocalPart
      else .ok (lp ++ 64 :: domain)
    else .error .invalidLocalPart
  | _ => .error .invalidEmailFormat

/-! ## Helper lemmas: trimming, lowering, splitting -/

lemma dropWhile_eq_self_of_all (p : Nat → Bool) (l : List Nat)
    (h : ∀ c ∈ l, p c = false) : l.dropWhile p = l := by
  cases l with
  | nil => rfl
  | cons c t =>
    rw [List.dropWhile_cons_of_neg]
    simp [h c (by simp)]

lemma trimBoth_eq_self_of_all (p : Nat → Bool) (l : List Nat)
    (h : ∀ c ∈ l, p c = false) : trimBoth p l = l := by
  unfold trimBoth
  rw [dropWhile_eq_self_of_all p l h,
      dropWhile_eq_self_of_all p l.reverse (by intro c hc; exact h c (List.mem_reverse.mp hc)),
      List.reverse_reverse]

lemma trimBoth_subset (p : Nat → Bool) (l : List Nat) : trimBoth p l ⊆ l := by
  unfold trimBoth
  intro x hx
  rw [List.mem_reverse] at hx
  have h1 := (List.dropWhile_sublist p).subset hx
  rw [List.mem_reverse] at h1
  exact (List.dropWhile_sublist p).subset h1

lemma map_eq_self_of_fixed (f : Nat → Nat) (l : List Nat)
    (h : ∀ c ∈ l, f c = c) : l.map f = l := by
  induction l with
  | nil => rfl
  | cons c t ih =>
    simp only [List.map_cons, h c (by simp)]
    rw [ih (fun c hc => h c (by simp [hc]))]

/-! ## Helper lemmas: character classes -/

lemma allowedLocalChar_ranges {c : Nat} (h : isAllowedLocalChar c = true) :
    (97 ≤ c ∧ c ≤ 122) ∨ (48 ≤ c ∧ c ≤ 57) ∨ c = 45 ∨ c = 95 ∨ c = 46 := by
  simp only [isAllowedLocalChar, Bool.or_eq_true, Bool.and_eq_true,
    decide_eq_true_eq] at h
  tauto

lemma goToLower_fixed_of_allowed {c : Nat} (h : isAllowedLocalChar c = true) :
    goToLower c = c := by
  rcases allowedLocalChar_ranges h with h1 | h1 | h1 | h1 | h1 <;>
    (unfold goToLower; rw [if_neg]; omega)

lemma goIsSpace_false_of_allowed {c : Nat} (h : isAllowedLocalChar c = true) :
    goIsSpace c = false := by
  rcases allowedLocalChar_ranges h with h1 | h1 | h1 | h1 | h1 <;>
    (simp only [goIsSpace, Bool.or_eq_false_iff, Bool.and_eq_false_iff,
       decide_eq_false_iff_not]; omega)

lemma isInvisibleRune_false_of_allowed {c : Nat} (h : isAllowedLocalChar c = true) :
    isInvisibleRune c = false := by
  rcases allowedLocalChar_ranges h with h1 | h1 | h1 | h1 | h1 <;>
    (simp only [isInvisibleRune, Bool.or_eq_false_iff,
       decide_eq_false_iff_not]; omega)

lemma allowedLocalChar_ne_at {c : Nat} (h : isAllowedLocalChar c = true) :
    c ≠ 64 := by
  rcases allowedLocalChar_ranges h with h1 | h1 | h1 | h1 | h1 <;> omega

/-- The characters relevant to idempotence are fixed by normalization. -/
lemma normalizeEmail_eq_self_of_chars (l : List Nat)
    (h : ∀ c ∈ l, c = 64 ∨ isAllowedLocalChar c = true) : normalizeEmail l = l := by
  have hfix : ∀ c ∈ l, goToLower c = c := by
    intro c hc
    rcases h c hc with h64 | hallow
    · subst h64; rfl
    · exact goToLower_fixed_of_allowed hallow
  have hsp : ∀ c ∈ l, goIsSpace c = false := by
    intro c hc
    rcases h c hc with h64 | hallow
    · subst h64; rfl
    · exact goIsSpace_false_of_allowed hallow
  have hinv : ∀ c ∈ l, isInvisibleRune c = false := by
    intro c hc
    rcases h c hc with h64 | hallow
    · subst h64; rfl
    · exact isInvisibleRune_false_of_allowed hallow
  unfold normalizeEmail
  rw [map_eq_self_of_fixed _ _ hfix, trimBoth_eq_self_of_all _ _ hsp,
      trimBoth_eq_self_of_all _ _ hinv]

/-! ## Helper lemmas: `goSplit` -/

lemma goSplit_ne_nil (sep : Nat) (l : List Nat) : goSplit sep l ≠ [] := by
  cases l with
  | nil => simp [goSplit]
  | cons c t =>
    unfold goSplit
    by_cases h : c = sep
    · simp [h]
    · simp only [if_neg h]
      cases goSplit sep t <;> simp

lemma goSplit_single {sep : Nat} {l : List Nat} (h : sep ∉ l) :
    goSplit sep l = [l] := by
  induction l with
  | nil => rfl
  | cons c t ih =>
    have hc : c ≠ sep := fun hc => h (by simp [hc])
    unfold goSplit
    rw [if_neg hc, ih (fun hm => h (by simp [hm]))]

lemma goSplit_eq_single {sep : Nat} {l b : List Nat} (h : goSplit sep l = [b]) :
    l = b ∧ sep ∉ b := by
  induction l generalizing b with
  | nil =>
    simp only [goSplit] at h
    obtain rfl : ([] : List Nat) = b := by simpa using h
    simp
  | cons c t ih =>
    unfold goSplit at h
    by_cases hc : c = sep
    · rw [if_pos hc] at h
      obtain ⟨-, h2⟩ := by simpa using h
      exact absurd h2 (goSplit_ne_nil sep t)
    · rw [if_neg hc] at h
      rcases hgs : goSplit sep t with _ | ⟨p, ps⟩
      · exact absurd hgs (goSplit_ne_nil sep t)
      · rw [hgs] at h
        obtain ⟨h1, h2⟩ := by simpa using h
        obtain rfl : ps = [] := h2
        obtain ⟨rfl, hnp⟩ := ih hgs
        constructor
        · exact h1
        · subst h1
          simp only [List.mem_cons, not_or]
          exact ⟨fun hh => hc hh.symm, hnp⟩

lemma goSplit_eq_pair {sep : Nat} {l a b : List Nat}
    (h : goSplit sep l = [a, b]) : l = a ++ sep :: b ∧ sep ∉ a ∧ sep ∉ b := by
  induction l generalizing a b with
  | nil => simp [goSplit] at h
  | cons c t ih =>
    unfold goSplit at h
    by_cases hc : c = sep
    · rw [if_pos hc] at h
      obtain ⟨h1, h2⟩ := by simpa using h
      obtain rfl : a = [] := h1
      obtain ⟨rfl, hnb⟩ := goSplit_eq_single h2
      subst hc
      simp [hnb]
    · rw [if_neg hc] at h
      rcases hgs : goSplit sep t with _ | ⟨p, ps⟩
      · exact absurd hgs (goSplit_ne_nil sep t)
      · rw [hgs] at h
        obtain ⟨h1, h2⟩ := by simpa using h
        rw [h2] at hgs
        obtain ⟨rfl, hnp, hnb⟩ := ih hgs
        refine ⟨?_, ?_, hnb⟩
        · rw [← h1]; simp
        · rw [← h1]
          simp only [List.mem_cons, not_or]
          exact ⟨fun hh => hc hh.symm, hnp⟩

lemma goSplit_append {sep : Nat} {a b : List Nat} (ha : sep ∉ a) (hb : sep ∉ b) :
    goSplit sep (a ++ sep :: b) = [a, b] := by
  induction a with
  | nil =>
    simp only [List.nil_append]
    unfold goSplit
    rw [if_pos rfl, goSplit_single hb]
  | cons c t ih =>
    have hc : c ≠ sep := fun hh => ha (by simp [hh])
    have ht : sep ∉ t := fun hh => ha (by simp [hh])
    simp only [List.cons_append]
    unfold goSplit
    rw [if_neg hc, ih ht]

/-! ## Helper lemmas: `firstIndex` -/

lemma isPrefixOfB_nil_of_ne {pat : List Nat} (h : pat ≠ []) :
    isPrefixOfB pat [] = false := by
  cases pat with
  | nil => exact absurd rfl h
  | cons a as => rfl

lemma firstIndex_found {l pat : List Nat} {i : Nat}
    (h : firstIndex l pat = some i) : isPrefixOfB pat (l.drop i) = true := by
  induction l generalizing i with
  | nil =>
    unfold firstIndex at h
    by_cases hp : isPrefixOfB pat [] = true
    · rw [if_pos hp] at h
      obtain rfl : (0 : Nat) = i := by simpa using h
      simpa using hp
    · rw [if_neg hp] at h; simp at h
  | cons c t ih =>
    unfold firstIndex at h
    by_cases hp : isPrefixOfB pat (c :: t) = true
    · rw [if_pos hp] at h
      obtain rfl : (0 : Nat) = i := by simpa using h
      simpa using hp
    · rw [if_neg hp] at h
      rcases hfi : firstIndex t pat with _ | j
      · rw [hfi] at h; simp at h
      · rw [hfi] at h
        obtain rfl : j + 1 = i := by simpa using h
        simpa using ih hfi

lemma firstIndex_min {l pat : List Nat} {i : Nat}
    (h : firstIndex l pat = some i) :
    ∀ j < i, isPrefixOfB pat (l.drop j) = false := by
  induction l generalizing i with
  | nil =>
    intro j hj
    unfold firstIndex at h
    by_cases hp : isPrefixOfB pat [] = true
    · rw [if_pos hp] at h
      obtain rfl : (0 : Nat) = i := by simpa using h
      omega
    · rw [if_neg hp] at h; simp at h
  | cons c t ih =>
    intro j hj
    unfold firstIndex at h
    by_cases hp : isPrefixOfB pat (c :: t) = true
    · rw [if_pos hp] at h
      obtain rfl : (0 : Nat) = i := by simpa using h
      omega
    · rw [if_neg hp] at h
      rcases hfi : firstIndex t pat with _ | k
      · rw [hfi] at h; simp at h
      · rw [hfi] at h
        obtain rfl : k + 1 = i := by simpa using h
        cases j with
        | zero => simpa using hp
        | succ j0 =>
          have := ih hfi j0 (by omega)
          simpa using this

lemma isPrefixOfB_of_take {pat m : List Nat} {k : Nat}
    (h : isPrefixOfB pat (m.take k) = true) : isPrefixOfB pat m = true := by
  induction pat generalizing m k with
  | nil => rfl
  | cons a as ih =>
    cases m with
    | nil => rw [List.take_nil] at h; exact h
    | cons b bs =>
      cases k with
      | zero =>
        rw [List.take_zero] at h
        exact absurd h (by simp [isPrefixOfB_nil_of_ne])
      | succ k0 =>
        simp only [List.take_succ_cons, isPrefixOfB, Bool.and_eq_true] at h ⊢
        exact ⟨h.1, ih h.2⟩

lemma firstIndex_take_eq_none {l pat : List Nat} {i : Nat}
    (hpat : pat ≠ []) (h : firstIndex l pat = some i) :
    firstIndex (l.take i) pat = none := by
  rcases hfi : firstIndex (l.take i) pat with _ | k
  · rfl
  · exfalso
    have hpre := firstIndex_found hfi
    rw [List.drop_take i k l] at hpre
    by_cases hk : k < i
    · have hfull : isPrefixOfB pat (l.drop k) = true := isPrefixOfB_of_take hpre
      exact absurd hfull (by simp [firstIndex_min h k hk])
    · rw [show i - k = 0 by omega, List.take_zero] at hpre
      exact absurd hpre (by simp [isPrefixOfB_nil_of_ne hpat])

lemma truncateLocal_idem (delimiter l : List Nat) :
    truncateLocal delimiter (truncateLocal delimiter l) = truncateLocal delimiter l := by
  unfold truncateLocal
  by_cases hd : delimiter = []
  · simp [hd]
  · rw [if_neg hd, if_neg hd]
    rcases hfi : firstIndex l delimiter with _ | idx
    · rw [hfi]
    · rw [firstIndex_take_eq_none hd hfi]

lemma truncateLocal_subset (delimiter l : List Nat) :
    truncateLocal delimiter l ⊆ l := by
  unfold truncateLocal
  by_cases hd : delimiter = []
  · simp [hd]
  · rw [if_neg hd]
    rcases firstIndex l delimiter with _ | idx
    · exact fun x hx => hx
    · exact List.take_subset idx l

/-! ## Helper lemmas: structure of `sanitizeEmail` -/

lemma sanitizeEmail_ok_intro {delimiter email l d : List Nat}
    (hg : goSplit 64 (normalizeEmail email) = [l, d])
    (hall : (truncateLocal delimiter l).all isAllowedLocalChar = true)
    (hne : truncateLocal delimiter l ≠ []) :
    sanitizeEmail delimiter email = .ok (truncateLocal delimiter l ++ 64 :: d) := by
  unfold sanitizeEmail
  rw [hg]
  simp [hall, hne]

lemma sanitizeEmail_ok_elim {delimiter email y : List Nat}
    (h : sanitizeEmail delimiter email = .ok y) :
    ∃ l d, goSplit 64 (normalizeEmail email) = [l, d] ∧
      (truncateLocal delimiter l).all isAllowedLocalChar = true ∧
      truncateLocal delimiter l ≠ [] ∧
      y = truncateLocal delimiter l ++ 64 :: d := by
  unfold sanitizeEmail at h
  split at h
  case _ l d heq =>
    refine ⟨l, d, heq, ?_⟩
    by_cases hall : (truncateLocal delimiter l).all isAllowedLocalChar = true
    · rw [if_pos hall] at h
      by_cases hne : truncateLocal delimiter l = []
      · rw [if_pos hne] at h; simp at h
      · rw [if_neg hne] at h
        refine ⟨hall, hne, ?_⟩
        have h2 : (truncateLocal delimiter l ++ 64 :: d) = y := by simpa using h
        exact h2.symm
    · rw [if_neg hall] at h; simp at h
  case _ => simp at h

/-! ## Helper lemmas: rate limiter -/

lemma sweep_eq (dayAgo hourAgo : Int) (l : List Int) :
    sweep dayAgo hourAgo l =
      (l.filter (fun ts => decide (dayAgo < ts)),
       l.countP (fun ts => decide (dayAgo < ts) && decide (hourAgo < ts)),
       (l.filter (fun ts => decide (dayAgo < ts))).length) := by
  induction l with
  | nil => rfl
  | cons ts rest ih =>
    unfold sweep
    rw [ih]
    by_cases hday : dayAgo < ts
    · by_cases hhour : hourAgo < ts
      · simp [hday, hhour, List.countP_cons]
      · simp [hday, hhour, List.countP_cons]
    · simp [hday, List.countP_cons]

lemma checkAndIncrement_none (counter : List Int) (now : Int) :
    checkAndIncrement counter none now = ⟨true, 0, 0, counter⟩ := rfl

/-- Branch-level characterization of `CheckAndIncrement` with a non-nil
quota, phrased over the garbage-collected sequence `kept`. -/
lemma checkAndIncrement_some (counter : List Int) (q : Quota) (now : Int) :
    checkAndIncrement counter (some q) now =
      (if 0 < q.PerHour ∧ q.PerHour ≤
          ((counter.countP fun ts =>
             decide (now - goDay < ts) && decide (now - goHour < ts)) : Int) then
        ⟨false,
         counter.countP fun ts =>
           decide (now - goDay < ts) && decide (now - goHour < ts),
         (counter.filter fun ts => decide (now - goDay < ts)).length,
         counter.filter fun ts => decide (now - goDay < ts)⟩
      else if 0 < q.PerDay ∧ q.PerDay ≤
          (((counter.filter fun ts => decide (now - goDay < ts)).length) : Int) then
        ⟨false,
         counter.countP fun ts =>
           decide (now - goDay < ts) && decide (now - goHour < ts),
         (counter.filter fun ts => decide (now - goDay < ts)).length,
         counter.filter fun ts => decide (now - goDay < ts)⟩
      else
        ⟨true,
         (counter.countP fun ts =>
           decide (now - goDay < ts) && decide (now - goHour < ts)) + 1,
         (counter.filter fun ts => decide (now - goDay < ts)).length + 1,
         (counter.filter fun ts => decide (now - goDay < ts)) ++ [now]⟩) := by
  simp only [checkAndIncrement, sweep_eq]

/-- The conjunctive hour predicate of `sweep` coincides with the plain
hour-window predicate: a timestamp after `now - goHour` is after
`now - goDay`. -/
lemma hourPred_eq (now : Int) :
    (fun ts => decide (now - goDay < ts) && decide (now - goHour < ts)) =
      (fun ts : Int => decide (now - goHour < ts)) := by
  funext ts
  by_cases h : now - goHour < ts
  · have hd : now - goDay < ts := by
      have : goHour ≤ goDay := by decide
      omega
    simp [h, hd]
  · simp [h]

lemma checkAndIncrement_state (counter : List Int) (q : Quota) (now : Int) :
    (checkAndIncrement counter (some q) now).state =
      (if (checkAndIncrement counter (some q) now).allowed then
        (counter.filter fun ts => decide (now - goDay < ts)) ++ [now]
      else counter.filter fun ts => decide (now - goDay < ts)) := by
  rw [checkAndIncrement_some]
  split
  · rfl
  · split <;> rfl

lemma checkAndIncrement_allowed_hour {counter : List Int} {q : Quota} {now : Int}
    (hq : 0 < q.PerHour)
    (hA : (checkAndIncrement counter (some q) now).allowed = true) :
    ((counter.countP fun ts => decide (now - goHour < ts)) : Int) < q.PerHour := by
  rw [checkAndIncrement_some] at hA
  rw [← hourPred_eq now]
  split at hA
  · simp at hA
  · rename_i h1
    push_neg at h1
    exact lt_of_not_le fun hcontra => absurd (h1 hq) (not_lt.mpr hcontra)

lemma checkAndIncrement_allowed_day {counter : List Int} {q : Quota} {now : Int}
    (hq : 0 < q.PerDay)
    (hA : (checkAndIncrement counter (some q) now).allowed = true) :
    ((counter.countP fun ts => decide (now - goDay < ts)) : Int) < q.PerDay := by
  rw [checkAndIncrement_some] at hA
  rw [List.countP_eq_length_filter]
  split at hA
  · simp at hA
  · split at hA
    · simp at hA
    · rename_i h2
      push_neg at h2
      exact lt_of_not_le fun hcontra => absurd (h2 hq) (not_lt.mpr hcontra)

lemma allowedAcc_cons (q : Quota) (st acc : List Int) (t : Int) (rest : List Int) :
    allowedAcc q st acc (t :: rest) =
      allowedAcc q (checkAndIncrement st (some q) t).state
        (if (checkAndIncrement st (some q) t).allowed then acc ++ [t] else acc) rest := rfl

/-- Core sliding-window invariant: processing sorted call times preserves
a bound on the number of admitted calls inside any fixed window of length
`L`, provided every admission guarantees fewer than `lim` stored
timestamps inside the trailing `L`-window. -/
lemma allowedAcc_window_bound (q : Quota) (L lim : Int) (hLday : L ≤ goDay)
    (hsel : ∀ (st : List Int) (t : Int),
      (checkAndIncrement st (some q) t).allowed = true →
      ((st.countP fun x => decide (t - L < x)) : Int) < lim)
    (w : Int) :
    ∀ (calls st acc : List Int), List.Sorted (· ≤ ·) calls →
      (∀ t ∈ calls, ∀ (p : Int → Bool), (∀ x, p x = true → t - goDay < x) →
        acc.countP p ≤ st.countP p) →
      ((acc.countP fun x => decide (w < x ∧ x ≤ w + L)) : Int) ≤ lim →
      (((allowedAcc q st acc calls).countP fun x => decide (w < x ∧ x ≤ w + L)) : Int) ≤ lim := by
  intro calls
  induction calls with
  | nil => intro st acc _ _ hcnt; simpa [allowedAcc] using hcnt
  | cons t rest ih =>
    intro st acc hs hdom hcnt
    have hsrest : List.Sorted (· ≤ ·) rest := hs.of_cons
    have hle : ∀ s ∈ rest, t ≤ s := List.rel_of_sorted_cons hs
    have hkept : ∀ (p : Int → Bool), (∀ x, p x = true → t - goDay < x) →
        acc.countP p ≤ (st.filter fun x => decide (t - goDay < x)).countP p := by
      intro p hp
      have heq : (st.filter fun x => decide (t - goDay < x)).countP p = st.countP p := by
        rw [List.countP_filter]
        congr 1
        funext x
        cases hpx : p x with
        | false => simp
        | true => simp [hp x hpx]
      rw [heq]
      exact hdom t (by simp) p hp
    have hstate := checkAndIncrement_state st q t
    by_cases hA : (checkAndIncrement st (some q) t).allowed = true
    · simp only [hA, if_true] at hstate
      have hac : allowedAcc q st acc (t :: rest) =
          allowedAcc q ((st.filter fun x => decide (t - goDay < x)) ++ [t]) (acc ++ [t]) rest := by
        rw [allowedAcc_cons, hstate]
        simp [hA]
      rw [hac]
      apply ih _ _ hsrest
      · intro t₂ ht₂ p hp
        rw [List.countP_append, List.countP_append]
        have h1 : acc.countP p ≤ (st.filter fun x => decide (t - goDay < x)).countP p := by
          apply hkept p
          intro x hx
          have htle : t ≤ t₂ := hle t₂ ht₂
          have := hp x hx
          omega
        omega
      · rw [List.countP_append]
        by_cases hwin : w < t ∧ t ≤ w + L
        · have h1 : List.countP (fun x => decide (w < x ∧ x ≤ w + L)) [t] = 1 := by
            simp [hwin]
          rw [h1]
          have h2 : acc.countP (fun x => decide (w < x ∧ x ≤ w + L)) ≤
              acc.countP (fun x => decide (t - L < x)) := by
            apply List.countP_mono_left
            intro x _ hpx
            simp only [decide_eq_true_eq] at hpx ⊢
            omega
          have h3 : acc.countP (fun x => decide (t - L < x)) ≤
              st.countP (fun x => decide (t - L < x)) := by
            apply hdom t (by simp)
            intro x hx
            simp only [decide_eq_true_eq] at hx ⊢
            omega
          have h4 := hsel st t hA
          omega
        · have h1 : List.countP (fun x => decide (w < x ∧ x ≤ w + L)) [t] = 0 := by
            simp [hwin]
          rw [h1]
          simpa using hcnt
    · have hA0 : (checkAndIncrement st (some q) t).allowed = false := by
        cases h : (checkAndIncrement st (some q) t).allowed
        · rfl
        · exact absurd h hA
      simp only [hA0, Bool.false_eq_true, if_false] at hstate
      have hac : allowedAcc q st acc (t :: rest) =
          allowedAcc q (st.filter fun x => decide (t - goDay < x)) acc rest := by
        rw [allowedAcc_cons, hstate]
        simp [hA0]
      rw [hac]
      apply ih _ _ hsrest _ hcnt
      intro t₂ ht₂ p hp
      apply hkept p
      intro x hx
      have htle : t ≤ t₂ := hle t₂ ht₂
      have := hp x hx
      omega

lemma kept_hour_count (counter : List Int) (now : Int) :
    ((counter.filter fun ts => decide (now - goDay < ts)).countP
        fun ts => decide (now - goHour < ts)) =
      counter.countP fun ts => decide (now - goDay < ts) && decide (now - goHour < ts) := by
  rw [List.countP_filter]
  congr 1
  funext ts
  exact Bool.and_comm _ _

/-! ## Claims -/

/-- Claim C1: for every sender state and non-nil quota, `CheckAndIncrement`
evaluated at time `now` first drops the sender's timestamps older than 24
hours, then computes `h` (remaining timestamps within the last hour) and
`d` (remaining timestamps within the last 24 hours); if the hour limit is
enabled and reached it returns `(false, h, d)` without appending,
otherwise if the day limit is enabled and reached it returns
`(false, h, d)` without appending, otherwise it appends `now` and returns
`(true, h+1, d+1)`.  With a nil quota, or when both quota fields are 0,
the call returns `allowed = true`. -/
theorem checkAndIncrement_matches_claim (counter : List Int) (now : Int) (q : Quota)
    (kept : List Int) (h d : Nat)
    (hkept : kept = counter.filter fun ts => decide (now - goDay < ts))
    (hh : h = kept.countP fun ts => decide (now - goHour < ts))
    (hd : d = kept.length) :
    (checkAndIncrement counter none now).allowed = true ∧
    (q.PerHour = 0 ∧ q.PerDay = 0 → (checkAndIncrement counter (some q) now).allowed = true) ∧
    (0 < q.PerHour ∧ q.PerHour ≤ (h : Int) →
      checkAndIncrement counter (some q) now = ⟨false, h, d, kept⟩) ∧
    (¬(0 < q.PerHour ∧ q.PerHour ≤ (h : Int)) → 0 < q.PerDay ∧ q.PerDay ≤ (d : Int) →
      checkAndIncrement counter (some q) now = ⟨false, h, d, kept⟩) ∧
    (¬(0 < q.PerHour ∧ q.PerHour ≤ (h : Int)) → ¬(0 < q.PerDay ∧ q.PerDay ≤ (d : Int)) →
      checkAndIncrement counter (some q) now = ⟨true, h + 1, d + 1, kept ++ [now]⟩) := by
  have hh2 : h = counter.countP fun ts =>
      decide (now - goDay < ts) && decide (now - goHour < ts) := by
    rw [hh, hkept, kept_hour_count]
  have hd2 : d = (counter.filter fun ts => decide (now - goDay < ts)).length := by
    rw [hd, hkept]
  refine ⟨rfl, ?_, ?_, ?_, ?_⟩
  · rintro ⟨h1, h2⟩
    rw [checkAndIncrement_some]
    rw [if_neg (by simp [h1]), if_neg (by simp [h2])]
  · intro h1
    rw [checkAndIncrement_some, ← hh2, ← hd2, ← hkept, if_pos h1]
  · intro h1 h2
    rw [checkAndIncrement_some, ← hh2, ← hd2, ← hkept, if_neg h1, if_pos h2]
  · intro h1 h2
    rw [checkAndIncrement_some, ← hh2, ← hd2, ← hkept, if_neg h1, if_neg h2]

/-- Claim C1 witness: a stored timestamp 5 nanoseconds old at quota
`per_hour = 1` is counted in both windows and the call is rejected
without appending. -/
theorem checkAndIncrement_matches_claim_witness :
    checkAndIncrement [0] (some ⟨1, 10⟩) 5 = ⟨false, 1, 1, [0]⟩ :=
  (checkAndIncrement_matches_claim [0] 5 ⟨1, 10⟩ [0] 1 1 (by decide) (by decide)
    (by decide)).2.2.1 (by decide)

/-- Claim C2: in any nondecreasing sequence of `CheckAndIncrement` call
times for one sender with a constant quota, starting from a fresh
counter, every window of length one hour contains at most `per_hour`
admitted calls (when `per_hour > 0`), and every window of length 24
hours contains at most `per_day` admitted calls (when `per_day > 0`). -/
theorem rateLimiter_sliding_window_bound (q : Quota) (calls : List Int) (w : Int)
    (hs : List.Sorted (· ≤ ·) calls) :
    (0 < q.PerHour →
      (((allowedTimes q calls).countP fun x => decide (w < x ∧ x ≤ w + goHour)) : Int) ≤
        q.PerHour) ∧
    (0 < q.PerDay →
      (((allowedTimes q calls).countP fun x => decide (w < x ∧ x ≤ w + goDay)) : Int) ≤
        q.PerDay) := by
  constructor
  · intro hq
    have := allowedAcc_window_bound q goHour q.PerHour (by decide)
      (fun st t hA => checkAndIncrement_allowed_hour hq hA) w calls [] []
      hs (by intro t ht p hp; simp) (by simpa using hq.le)
    simpa [allowedTimes] using this
  · intro hq
    have := allowedAcc_window_bound q goDay q.PerDay (by decide)
      (fun st t hA => checkAndIncrement_allowed_day hq hA) w calls [] []
      hs (by intro t ht p hp; simp) (by simpa using hq.le)
    simpa [allowedTimes] using this

/-- Claim C2 witness: with `per_hour = 2`, of four back-to-back calls at
times 0, 1, 2, 3 only the first two are admitted, so the window
`(-1, -1 + 1h]` holds 2 ≤ 2 admitted calls. -/
theorem rateLimiter_sliding_window_bound_witness :
    (0 : Int) < 2 ∧
    (((allowedTimes ⟨2, 100⟩ [0, 1, 2, 3]).countP
        fun x => decide ((-1 : Int) < x ∧ x ≤ -1 + goHour)) : Int) ≤ 2 :=
  ⟨by decide,
   (rateLimiter_sliding_window_bound ⟨2, 100⟩ [0, 1, 2, 3] (-1) (by decide)).1 (by decide)⟩

/-- Claim C3 counterexample: a nil-quota call returns `allowed = true`
yet leaves the sender's sequence untouched and does not increment the
returned counts, contradicting the claim's unconditional reading for
every `allowed = true` return. -/
theorem checkAndIncrement_frame_counterexample :
    (checkAndIncrement [] none 0).allowed = true ∧
    (checkAndIncrement [] none 0).state = [] ∧
    (checkAndIncrement [] none 0).state.length ≠ ([] : List Int).length + 1 ∧
    (checkAndIncrement [] none 0).hourCount = 0 := by
  exact ⟨rfl, rfl, by decide, rfl⟩

/-- Claim C3 (amended): for calls with a non-nil quota, an
`allowed = true` return leaves the sender's sequence equal to its
garbage-collected version with `now` appended at the end (one more
element than the garbage-collected sequence, ordering preserved) and
returns both window counts incremented by one; an `allowed = false`
return leaves the sequence equal to its garbage-collected version.  A
nil-quota call returns `(true, 0, 0)` with the sequence untouched. -/
theorem checkAndIncrement_frame_amended (counter : List Int) (q : Quota) (now : Int) :
    ((checkAndIncrement counter (some q) now).allowed = true →
      (checkAndIncrement counter (some q) now).state =
        (counter.filter fun ts => decide (now - goDay < ts)) ++ [now] ∧
      (checkAndIncrement counter (some q) now).state.length =
        (counter.filter fun ts => decide (now - goDay < ts)).length + 1 ∧
      (checkAndIncrement counter (some q) now).hourCount =
        ((counter.filter fun ts => decide (now - goDay < ts)).countP
          fun ts => decide (now - goHour < ts)) + 1 ∧
      (checkAndIncrement counter (some q) now).dayCount =
        (counter.filter fun ts => decide (now - goDay < ts)).length + 1) ∧
    ((checkAndIncrement counter (some q) now).allowed = false →
      (checkAndIncrement counter (some q) now).state =
        counter.filter fun ts => decide (now - goDay < ts)) ∧
    checkAndIncrement counter none now = ⟨true, 0, 0, counter⟩ := by
  have hmain := checkAndIncrement_some counter q now
  refine ⟨?_, ?_, rfl⟩
  · intro hA
    rw [hmain] at hA ⊢
    split_ifs at hA ⊢ with h1 h2
    refine ⟨rfl, by simp, ?_, rfl⟩
    rw [kept_hour_count]
  · intro hA
    rw [hmain] at hA ⊢
    split_ifs at hA ⊢ with h1 h2
    · rfl
    · rfl

/-- Claim C3 witness: an admitted call on an empty counter at quota
`(1, 1)` appends the call time. -/
theorem checkAndIncrement_frame_amended_witness :
    (checkAndIncrement [] (some ⟨1, 1⟩) 0).allowed = true ∧
    (checkAndIncrement [] (some ⟨1, 1⟩) 0).state =
      (([] : List Int).filter fun ts => decide ((0 : Int) - goDay < ts)) ++ [0] :=
  ⟨by decide, ((checkAndIncrement_frame_amended [] ⟨1, 1⟩ 0).1 (by decide)).1⟩


/-- Claim C4: `handleRequest` returns DUNNO when the protocol state is
not END-OF-MESSAGE; the sender identity is `sasl_username` when
non-empty, else `sender`, and when both are empty it returns DUNNO; a
failed quota fetch returns DUNNO (fail-open); a fetched quota with both
fields 0 returns DUNNO without invoking the rate limiter (the limiter
state is untouched); otherwise it returns DUNNO exactly when
`CheckAndIncrement` admits and the REJECT message exactly when it
denies; no other action string is ever produced. -/
theorem handleRequest_decision_spec (req : PolicyReq)
    (fetch : List Nat → Except UserliError Quota) (st : List Int) (now : Int) :
    (req.protocolState ≠ str "END-OF-MESSAGE" →
      handleRequest req fetch st now = (str "DUNNO", st)) ∧
    (senderIdentity req =
      if req.saslUsername ≠ [] then req.saslUsername else req.sender) ∧
    (req.protocolState = str "END-OF-MESSAGE" → senderIdentity req = [] →
      handleRequest req fetch st now = (str "DUNNO", st)) ∧
    (∀ e, req.protocolState = str "END-OF-MESSAGE" → senderIdentity req ≠ [] →
      fetch (senderIdentity req) = .error e →
      handleRequest req fetch st now = (str "DUNNO", st)) ∧
    (∀ quota, req.protocolState = str "END-OF-MESSAGE" → senderIdentity req ≠ [] →
      fetch (senderIdentity req) = .ok quota →
      quota.PerHour = 0 → quota.PerDay = 0 →
      handleRequest req fetch st now = (str "DUNNO", st)) ∧
    (∀ quota, req.protocolState = str "END-OF-MESSAGE" → senderIdentity req ≠ [] →
      fetch (senderIdentity req) = .ok quota →
      ¬(quota.PerHour = 0 ∧ quota.PerDay = 0) →
      handleRequest req fetch st now =
        ((if (checkAndIncrement st (some quota) now).allowed then str "DUNNO"
          else str "REJECT Rate limit exceeded, please try again later"),
         (checkAndIncrement st (some quota) now).state)) ∧
    ((handleRequest req fetch st now).1 = str "DUNNO" ∨
      (handleRequest req fetch st now).1 =
        str "REJECT Rate limit exceeded, please try again later") := by
  have hb1 : req.protocolState ≠ str "END-OF-MESSAGE" →
      handleRequest req fetch st now = (str "DUNNO", st) := by
    intro h1
    simp only [handleRequest]
    rw [if_pos h1]
  have hb3 : req.protocolState = str "END-OF-MESSAGE" → senderIdentity req = [] →
      handleRequest req fetch st now = (str "DUNNO", st) := by
    intro h1 h2
    simp only [handleRequest]
    rw [if_neg (by simp [h1]), if_pos h2]
  have hb4 : ∀ e, req.protocolState = str "END-OF-MESSAGE" → senderIdentity req ≠ [] →
      fetch (senderIdentity req) = .error e →
      handleRequest req fetch st now = (str "DUNNO", st) := by
    intro e h1 h2 hf
    simp only [handleRequest]
    rw [if_neg (by simp [h1]), if_neg h2, hf]
  have hb5 : ∀ quota, req.protocolState = str "END-OF-MESSAGE" →
      senderIdentity req ≠ [] → fetch (senderIdentity req) = .ok quota →
      ¬(quota.PerHour = 0 ∧ quota.PerDay = 0) →
      handleRequest req fetch st now =
        ((if (checkAndIncrement st (some quota) now).allowed then str "DUNNO"
          else str "REJECT Rate limit exceeded, please try again later"),
         (checkAndIncrement st (some quota) now).state) := by
    intro quota h1 h2 hf hq
    simp only [handleRequest]
    rw [if_neg (by simp [h1]), if_neg h2, hf]
    show (if quota.PerHour = 0 ∧ quota.PerDay = 0 then (str "DUNNO", st)
      else if (checkAndIncrement st (some quota) now).allowed = true then
        (str "DUNNO", (checkAndIncrement st (some quota) now).state)
      else (str "REJECT Rate limit exceeded, please try again later",
        (checkAndIncrement st (some quota) now).state)) = _
    rw [if_neg hq]
    by_cases h4 : (checkAndIncrement st (some quota) now).allowed = true
    · rw [if_pos h4, if_pos h4]
    · rw [if_neg h4, if_neg h4]
  have hb5z : ∀ quota, req.protocolState = str "END-OF-MESSAGE" →
      senderIdentity req ≠ [] → fetch (senderIdentity req) = .ok quota →
      quota.PerHour = 0 → quota.PerDay = 0 →
      handleRequest req fetch st now = (str "DUNNO", st) := by
    intro quota h1 h2 hf hq1 hq2
    simp only [handleRequest]
    rw [if_neg (by simp [h1]), if_neg h2, hf]
    exact if_pos ⟨hq1, hq2⟩
  refine ⟨hb1, ?_, hb3, hb4, hb5z, hb5, ?_⟩
  · unfold senderIdentity
    by_cases hu : req.saslUsername = []
    · simp [hu]
    · simp [hu]
  · by_cases h1 : req.protocolState = str "END-OF-MESSAGE"
    · by_cases h2 : senderIdentity req = []
      · rw [hb3 h1 h2]; left; rfl
      · rcases hf : fetch (senderIdentity req) with e | quota
        · rw [hb4 e h1 h2 hf]; left; rfl
        · by_cases h3 : quota.PerHour = 0 ∧ quota.PerDay = 0
          · rw [hb5z quota h1 h2 hf h3.1 h3.2]; left; rfl
          · rw [hb5 quota h1 h2 hf h3]
            by_cases h4 : (checkAndIncrement st (some quota) now).allowed = true
            · left; simp [h4]
            · right; simp [h4]
    · rw [hb1 h1]; left; rfl

/-- Claim C4 witness: an END-OF-MESSAGE request with empty SASL username
and envelope sender `a@b`, quota `(1, 1)` and a fresh limiter is
admitted and answered DUNNO, with the call time recorded. -/
theorem handleRequest_decision_spec_witness :
    handleRequest ⟨str "END-OF-MESSAGE", str "a@b", []⟩
      (fun _ => .ok ⟨1, 1⟩) [] 0 = (str "DUNNO", [(0 : Int)]) :=
  ((handleRequest_decision_spec ⟨str "END-OF-MESSAGE", str "a@b", []⟩
    (fun _ => .ok ⟨1, 1⟩) [] 0).2.2.2.2.2.1 ⟨1, 1⟩ rfl (by decide) rfl
    (by decide)).trans (by decide)

lemma splitN2_length (sep : Nat) (l : List Nat) :
    (splitN2 sep l).length = 1 ∨ (splitN2 sep l).length = 2 := by
  unfold splitN2
  rcases firstIndex l [sep] with _ | idx <;> simp

/-- Claim C5 counterexample: an alias lookup whose backend returns the
non-empty list containing one empty string is answered with the rendered
bytes `OK`, not `OK ` followed by the comma-joined elements (which would
be `OK ` with a trailing space). -/
theorem socketmap_ok_render_counterexample :
    (processRequest
        ⟨fun _ => .ok [[]], fun _ => .ok false, fun _ => .ok false, fun _ => .ok []⟩
        (str "alias k")).render = str "OK" ∧
    str "OK" ≠ str "OK " ++ joinComma [[]] := by
  exact ⟨by decide, by decide⟩

/-- Claim C5 (amended): a payload that does not split into two
space-separated fields is answered `PERM Invalid request format`; an
unknown map name is answered `PERM Unknown map name`; for alias and
senders a non-empty backend list yields status `OK` with the elements
joined by `,` (rendered `OK <joined>`, which collapses to `OK` when the
joined string is empty, i.e. for the list containing exactly one empty
string) and an empty list yields `NOTFOUND`; for domain and mailbox
`true` yields `OK 1` and `false` yields `NOTFOUND`; any backend error
yields status `TEMP` with a short reason. -/
theorem socketmap_response_spec_amended (b : LookupBackend)
    (request mapName key : List Nat) :
    ((splitN2 32 (trimBoth goIsSpace request)).length ≠ 2 →
      (processRequest b request).render = str "PERM Invalid request format") ∧
    (splitN2 32 (trimBoth goIsSpace request) = [mapName, key] →
      ((mapName ≠ str "alias" → mapName ≠ str "domain" → mapName ≠ str "mailbox" →
        mapName ≠ str "senders" →
        (processRequest b request).render = str "PERM Unknown map name") ∧
      (mapName = str "alias" →
        (∀ e, b.aliases key = .error e →
          (processRequest b request).render = str "TEMP Error fetching aliases") ∧
        (b.aliases key = .ok [] →
          (processRequest b request).render = str "NOTFOUND") ∧
        (∀ l, b.aliases key = .ok l → l ≠ [] →
          processRequest b request = ⟨str "OK", joinComma l⟩ ∧
          (processRequest b request).render =
            (if joinComma l = [] then str "OK" else str "OK " ++ joinComma l))) ∧
      (mapName = str "senders" →
        (∀ e, b.sendersOf key = .error e →
          (processRequest b request).render = str "TEMP Error fetching senders") ∧
        (b.sendersOf key = .ok [] →
          (processRequest b request).render = str "NOTFOUND") ∧
        (∀ l, b.sendersOf key = .ok l → l ≠ [] →
          processRequest b request = ⟨str "OK", joinComma l⟩ ∧
          (processRequest b request).render =
            (if joinComma l = [] then str "OK" else str "OK " ++ joinComma l))) ∧
      (mapName = str "domain" →
        (∀ e, b.domain key = .error e →
          (processRequest b request).render = str "TEMP Error fetching domain") ∧
        (b.domain key = .ok true → (processRequest b request).render = str "OK 1") ∧
        (b.domain key = .ok false →
          (processRequest b request).render = str "NOTFOUND")) ∧
      (mapName = str "mailbox" →
        (∀ e, b.mailbox key = .error e →
          (processRequest b request).render = str "TEMP Error fetching mailbox") ∧
        (b.mailbox key = .ok true → (processRequest b request).render = str "OK 1") ∧
        (b.mailbox key = .ok false →
          (processRequest b request).render = str "NOTFOUND")))) := by
  constructor
  · intro hlen
    have h1 : (splitN2 32 (trimBoth goIsSpace request)).length = 1 := by
      rcases splitN2_length 32 (trimBoth goIsSpace request) with h | h
      · exact h
      · exact absurd h hlen
    obtain ⟨x, hx⟩ := List.length_eq_one.mp h1
    simp only [processRequest]
    rw [hx]
    rfl
  · intro hsplit
    have hred : processRequest b request =
        (if mapName = str "alias" then handleAlias b key
        else if mapName = str "domain" then handleDomain b key
        else if mapName = str "mailbox" then handleMailbox b key
        else if mapName = str "senders" then handleSenders b key
        else ⟨str "PERM", str "Unknown map name"⟩) := by
      simp only [processRequest]
      rw [hsplit]
    refine ⟨?_, ?_, ?_, ?_, ?_⟩
    · intro hne1 hne2 hne3 hne4
      rw [hred, if_neg hne1, if_neg hne2, if_neg hne3, if_neg hne4]
      rfl
    · intro hm
      have halias : processRequest b request = handleAlias b key := by
        rw [hred, if_pos hm]
      refine ⟨?_, ?_, ?_⟩
      · intro e he
        rw [halias]
        simp only [handleAlias]
        rw [he]
        rfl
      · intro he
        rw [halias]
        simp only [handleAlias]
        rw [he]
        rfl
      · intro l hl hlne
        have hlen0 : ¬(l.length = 0) := by simpa using hlne
        rw [halias]
        simp only [handleAlias]
        rw [hl]
        constructor
        · show (if l.length = 0 then (⟨str "NOTFOUND", []⟩ : SMResponse)
            else ⟨str "OK", joinComma l⟩) = ⟨str "OK", joinComma l⟩
          exact if_neg hlen0
        · show (if l.length = 0 then (⟨str "NOTFOUND", []⟩ : SMResponse)
            else ⟨str "OK", joinComma l⟩).render = _
          rw [if_neg hlen0]
          unfold SMResponse.render
          by_cases hj : joinComma l = []
          · simp [hj]
          · rw [if_neg hj, if_neg hj]
            rfl
    · intro hm
      have hsend : processRequest b request = handleSenders b key := by
        rw [hred, if_neg (by rw [hm]; decide), if_neg (by rw [hm]; decide),
          if_neg (by rw [hm]; decide), if_pos hm]
      refine ⟨?_, ?_, ?_⟩
      · intro e he
        rw [hsend]
        simp only [handleSenders]
        rw [he]
        rfl
      · intro he
        rw [hsend]
        simp only [handleSenders]
        rw [he]
        rfl
      · intro l hl hlne
        have hlen0 : ¬(l.length = 0) := by simpa using hlne
        rw [hsend]
        simp only [handleSenders]
        rw [hl]
        constructor
        · show (if l.length = 0 then (⟨str "NOTFOUND", []⟩ : SMResponse)
            else ⟨str "OK", joinComma l⟩) = ⟨str "OK", joinComma l⟩
          exact if_neg hlen0
        · show (if l.length = 0 then (⟨str "NOTFOUND", []⟩ : SMResponse)
            else ⟨str "OK", joinComma l⟩).render = _
          rw [if_neg hlen0]
          unfold SMResponse.render
          by_cases hj : joinComma l = []
          · simp [hj]
          · rw [if_neg hj, if_neg hj]
            rfl
    · intro hm
      have hdom : processRequest b request = handleDomain b key := by
        rw [hred, if_neg (by rw [hm]; decide), if_pos hm]
      refine ⟨?_, ?_, ?_⟩
      · intro e he
        rw [hdom]
        simp only [handleDomain]
        rw [he]
        rfl
      · intro he
        rw [hdom]
        simp only [handleDomain]
        rw [he]
        rfl
      · intro he
        rw [hdom]
        simp only [handleDomain]
        rw [he]
        rfl
    · intro hm
      have hmb : processRequest b request = handleMailbox b key := by
        rw [hred, if_neg (by rw [hm]; decide), if_neg (by rw [hm]; decide), if_pos hm]
      refine ⟨?_, ?_, ?_⟩
      · intro e he
        rw [hmb]
        simp only [handleMailbox]
        rw [he]
        rfl
      · intro he
        rw [hmb]
        simp only [handleMailbox]
        rw [he]
        rfl
      · intro he
        rw [hmb]
        simp only [handleMailbox]
        rw [he]
        rfl

/-- Claim C5 witness: an alias request whose backend returns two aliases
is answered `OK` followed by the comma-joined list. -/
theorem socketmap_response_spec_amended_witness :
    (processRequest
        ⟨fun _ => .ok [str "x", str "y"], fun _ => .ok false, fun _ => .ok false,
         fun _ => .ok []⟩ (str "alias k")).render = str "OK x,y" :=
  (((((socketmap_response_spec_amended
      ⟨fun _ => .ok [str "x", str "y"], fun _ => .ok false, fun _ => .ok false,
       fun _ => .ok []⟩
      (str "alias k") (str "alias") (str "k")).2 (by decide)).2.1 rfl).2.2
      [str "x", str "y"] rfl (by decide)).2).trans (by decide)

/-- Claim C6 counterexample: `GetQuota` surfaces a sanitization failure
to its caller as an error (`return nil, err` in the source) instead of
returning an empty result with nil error. -/
theorem getQuota_sanitize_error_counterexample :
    GetQuota [] (fun _ => .ok ⟨0, 0⟩) (str "invalid") =
      .error (.sanitizeFailure .invalidEmailFormat) := rfl

/-- Claim C6 (amended): when sanitization of the input fails, the
operation returns its empty result with nil error without consulting the
backend — `GetAliases` and `GetSenders` the empty list, `GetMailbox`
`false` (so the mailbox lookup handler responds NOTFOUND) — for every
Userli operation that sanitizes its input except `GetQuota`, which
returns the sanitization error to its caller. -/
theorem sanitizeFailure_empty_result_amended
    (delimiter email : List Nat) (e : SanitizeError)
    (hs : sanitizeEmail delimiter email = .error e) :
    (∀ b, GetAliases delimiter b email = .ok []) ∧
    (∀ b, GetSenders delimiter b email = .ok []) ∧
    (∀ b, GetMailbox delimiter b email = .ok false) ∧
    (∀ bq, GetQuota delimiter bq email = .error (.sanitizeFailure e)) ∧
    (∀ (b : LookupBackend) bm, b.mailbox = (fun k => GetMailbox delimiter bm k) →
      handleMailbox b email = ⟨str "NOTFOUND", []⟩) := by
  refine ⟨?_, ?_, ?_, ?_, ?_⟩
  · intro b
    simp only [GetAliases, hs]
  · intro b
    simp only [GetSenders, hs]
  · intro b
    simp only [GetMailbox, hs]
  · intro bq
    simp only [GetQuota, hs]
  · intro b bm hb
    simp only [handleMailbox, hb, GetMailbox, hs]
    rfl

/-- Claim C6 witness: the input `invalid` (no `@`) fails sanitization;
`GetAliases` then answers the empty list with nil error for any
backend. -/
theorem sanitizeFailure_empty_result_amended_witness :
    sanitizeEmail [] (str "invalid") = .error .invalidEmailFormat ∧
    GetAliases [] (fun _ => .ok [str "a"]) (str "invalid") = .ok [] :=
  ⟨rfl,
   (sanitizeFailure_empty_result_amended [] (str "invalid") .invalidEmailFormat
     rfl).1 (fun _ => .ok [str "a"])⟩

/-- Claim C7 counterexample: the source trims Unicode whitespace
(`strings.TrimSpace`) before the control/zero-width trim, so a leading
U+00A0 (no-break space) is removed and the input sanitizes successfully,
while the claim's algorithm — which trims only ASCII whitespace, ASCII
control bytes and the four zero-width code points — leaves the U+00A0 in
the local part and fails with an invalid-local-part error. -/
theorem sanitizeEmail_claim_algorithm_counterexample :
    sanitizeEmail [] (0xA0 :: str "user@example.com") =
      .ok (str "user@example.com") ∧
    specSanitize [] (0xA0 :: str "user@example.com") =
      .error .invalidLocalPart := by
  exact ⟨rfl, rfl⟩

/-- Claim C7 (amended): `sanitizeEmail` performs, in order: lowercase;
trim Unicode whitespace (Go `unicode.IsSpace`) leading/trailing, then
trim ASCII control bytes (`< 0x21` or `= 0x7F`) and U+200B, U+200C,
U+200D, U+FEFF leading/trailing; split on `@` requiring exactly two
parts; truncate the local part at the first occurrence of a configured
delimiter; require the local part to be non-empty and match the allowed
pattern; re-join.  In particular `"  User+tag@Example.COM"` followed by
U+200B with delimiter `"+"` produces `"user@example.com"`, and with no
delimiter it fails with an invalid-local-part error. -/
theorem sanitizeEmail_algorithm_amended :
    (∀ delimiter email,
      sanitizeEmail delimiter email = specSanitizeAmended delimiter email) ∧
    sanitizeEmail (str "+") (str "  User+tag@Example.COM" ++ [0x200B]) =
      .ok (str "user@example.com") ∧
    sanitizeEmail [] (str "  User+tag@Example.COM" ++ [0x200B]) =
      .error .invalidLocalPart := by
  exact ⟨fun delimiter email => rfl, rfl, rfl⟩

/-- Claim C8: on inputs containing exactly one `@` and otherwise only
allowed local-part characters, `sanitizeEmail` is idempotent: whenever it
succeeds with result `y`, sanitizing `y` succeeds and returns `y`. -/
theorem sanitizeEmail_idempotent (delimiter x y : List Nat)
    (hchars : ∀ c ∈ x, c = 64 ∨ isAllowedLocalChar c = true)
    (hone : x.count 64 = 1)
    (hok : sanitizeEmail delimiter x = .ok y) :
    sanitizeEmail delimiter y = .ok y := by
  obtain ⟨l, d, hg, hall, hne, rfl⟩ := sanitizeEmail_ok_elim hok
  rw [normalizeEmail_eq_self_of_chars x hchars] at hg
  obtain ⟨hx, hnl, hnd⟩ := goSplit_eq_pair hg
  have hlpchars : ∀ c ∈ truncateLocal delimiter l, isAllowedLocalChar c = true :=
    fun c hc => List.all_eq_true.mp hall c hc
  have hdchars : ∀ c ∈ d, isAllowedLocalChar c = true := by
    intro c hc
    have hcx : c ∈ x := by rw [hx]; simp [hc]
    rcases hchars c hcx with h64 | hallow
    · exact absurd (h64 ▸ hc) hnd
    · exact hallow
  have hychars : ∀ c ∈ truncateLocal delimiter l ++ 64 :: d,
      c = 64 ∨ isAllowedLocalChar c = true := by
    intro c hc
    rcases List.mem_append.mp hc with h1 | h1
    · exact Or.inr (hlpchars c h1)
    · rcases List.mem_cons.mp h1 with h2 | h2
      · exact Or.inl h2
      · exact Or.inr (hdchars c h2)
  have hnlp : (64 : Nat) ∉ truncateLocal delimiter l :=
    fun hm => allowedLocalChar_ne_at (hlpchars 64 hm) rfl
  have hg2 : goSplit 64 (normalizeEmail (truncateLocal delimiter l ++ 64 :: d)) =
      [truncateLocal delimiter l, d] := by
    rw [normalizeEmail_eq_self_of_chars _ hychars]
    exact goSplit_append hnlp hnd
  have htr : truncateLocal delimiter (truncateLocal delimiter l) =
      truncateLocal delimiter l := truncateLocal_idem delimiter l
  have hres := sanitizeEmail_ok_intro hg2
    (by rw [htr]; exact hall) (by rw [htr]; exact hne)
  rw [htr] at hres
  exact hres

/-- Claim C8 witness: a well-formed lower-case address sanitizes to
itself, and sanitizing the output returns it unchanged. -/
theorem sanitizeEmail_idempotent_witness :
    (∀ c ∈ str "user@example.com", c = 64 ∨ isAllowedLocalChar c = true) ∧
    sanitizeEmail [] (str "user@example.com") = .ok (str "user@example.com") :=
  ⟨by decide,
   sanitizeEmail_idempotent [] (str "user@example.com") (str "user@example.com")
     (by decide) (by decide) rfl⟩

/-- Claim C9: the accept loop admits a connection only while the pool
holds fewer than `MaxConcurrentConnections = 500` tokens, so pool
occupancy never exceeds 500 in any event sequence; a full pool refuses
the connection leaving occupancy unchanged (the refusal branch only
invokes the pool-full callback and closes the connection, writing no
response); and each handler exit releases exactly one token, decreasing
occupancy by exactly one. -/
theorem connectionPool_bound_spec :
    (∀ evts : List PoolEvent, poolOcc evts ≤ MaxConcurrentConnections) ∧
    (∀ occ : Nat, occ < MaxConcurrentConnections → acceptConn occ = (true, occ + 1)) ∧
    (∀ occ : Nat, ¬occ < MaxConcurrentConnections → acceptConn occ = (false, occ)) ∧
    (∀ occ : Nat, 0 < occ →
      poolStep occ .finish = occ - 1 ∧ poolStep occ .finish + 1 = occ) := by
  refine ⟨?_, ?_, ?_, ?_⟩
  · intro evts
    have haux : ∀ (es : List PoolEvent) (occ : Nat), occ ≤ MaxConcurrentConnections →
        es.foldl poolStep occ ≤ MaxConcurrentConnections := by
      intro es
      induction es with
      | nil => intro occ h; simpa using h
      | cons e es ih =>
        intro occ h
        simp only [List.foldl_cons]
        apply ih
        cases e with
        | accept =>
          simp only [poolStep, acceptConn]
          split
          · rename_i hlt
            omega
          · exact h
        | finish =>
          simp only [poolStep]
          omega
    exact haux evts 0 (by omega)
  · intro occ h
    simp [acceptConn, h]
  · intro occ h
    simp [acceptConn, h]
  · intro occ h
    refine ⟨rfl, ?_⟩
    simp only [poolStep]
    omega

/-- Claim C9 witness: at occupancy 1 a handler exit returns occupancy to
0 exactly, and at a full pool of 500 the accept is refused with
occupancy unchanged. -/
theorem connectionPool_bound_spec_witness :
    poolStep 1 .finish + 1 = 1 ∧ acceptConn 500 = (false, 500) :=
  ⟨(connectionPool_bound_spec.2.2.2 1 (by decide)).2,
   connectionPool_bound_spec.2.2.1 500 (by decide)⟩

/-- Claim C10: `sanitizeEmail` never validates the domain part: whenever
the lowercased, trimmed input splits at one `@` into a local part and a
domain, and the delimiter-truncated local part is non-empty and matches
the allowed pattern, sanitization succeeds and returns that local part
joined with the unmodified domain — whatever the domain contains,
including the empty domain. -/
theorem sanitizeEmail_domain_unchecked (delimiter email l d : List Nat)
    (hsplit : normalizeEmail email = l ++ 64 :: d)
    (hnl : (64 : Nat) ∉ l) (hnd : (64 : Nat) ∉ d)
    (hall : (truncateLocal delimiter l).all isAllowedLocalChar = true)
    (hne : truncateLocal delimiter l ≠ []) :
    sanitizeEmail delimiter email = .ok (truncateLocal delimiter l ++ 64 :: d) :=
  sanitizeEmail_ok_intro
    (by rw [hsplit]; exact goSplit_append hnl hnd) hall hne

/-- Claim C10 witness: `user@` — with its empty domain — sanitizes
successfully to `user@`. -/
theorem sanitizeEmail_domain_unchecked_witness :
    sanitizeEmail [] (str "user@") = .ok (truncateLocal [] (str "user") ++ [64]) :=
  sanitizeEmail_domain_unchecked [] (str "user@") (str "user") []
    (by decide) (by decide) (by decide) (by decide) (by decide)
